import Mathlib

/-!
Verification development for the method layering and dispatch core of the
hexya `models` package (`src/models/methods.go`).

The Go code is shallowly embedded as follows:

* Go pointer identity of `*methodLayer` values is represented by allocation
  order: each call to `addMethodLayer` allocates the next natural number as
  the layer's identity (`layerCounter` plays the role of the allocator).
* Go maps (`map[*methodLayer]*methodLayer`, `map[*security.Group]bool`,
  `map[callerGroup]bool`, `map[string]*Method`) are represented as
  association lists / lists with set-insert semantics.
* `reflect.Type` values are represented by natural-number type identities
  together with a `TypeUniv` record providing the reflective queries the
  code performs (`Implements`, `Kind() == Interface`, `Name()`) and the
  identities of the distinguished types compared against
  (`*RecordCollection`, `RecordSet`, `FieldMap`, `FieldMapper`,
  `*Condition`, `RecordData`, `*ModelData`).
* `log.Panic` aborts the current entry point leaving the data structures
  unchanged; entry points are therefore embedded as `Except`-valued
  functions, an error standing for the panic.
* The mutual recursion `get` / `findMethodInMixin` over the mixin graph is
  made total with an explicit fuel parameter; any fuel larger than the
  number of models in the (acyclic) mixin tree yields the Go behaviour.
-/

/-- A Go `reflect.Type` signature of a function: parameter type identities
(including the receiver at index 0), return type identities, and whether the
function is variadic. -/
structure Signature where
  inTypes : List Nat
  outTypes : List Nat
  variadic : Bool
deriving DecidableEq

/-- The reflective environment: identities of the distinguished types the Go
code compares against, plus the `Implements`, interface-kind and `Name`
queries on type identities. -/
structure TypeUniv where
  ptrRecordCollection : Nat
  ifaceRecordSet : Nat
  fieldMapType : Nat
  ifaceFieldMapper : Nat
  ptrCondition : Nat
  ifaceRecordData : Nat
  ptrModelData : Nat
  isInterface : Nat → Bool
  implements : Nat → Nat → Bool
  typeName : Nat → String

/-- The `fnct interface{}` argument of `NewMethod` / `Extend`: either a
function value (with its reflected signature) or some non-function value. -/
inductive FnctArg where
  | func (sig : Signature)
  | nonFunc
deriving DecidableEq

/-- The panics raised by the embedded entry points. -/
inductive MErr where
  | mutationAfterBootstrap
  | notAFunction
  | firstArgNotRecordSet
  | incompatibleSignature
  | duplicateDeclaration
  | setDifferentModel
  | unknownMethod
deriving DecidableEq

/-- `true` exactly on `Except.error`. -/
def isErr {α : Type} : Except MErr α → Bool
  | .error _ => true
  | .ok _ => false

/-- methods.go `unauthorizedMethods`: methods that should not be given
execution permission by default. -/
def unauthorizedMethods (methodName : String) : Bool :=
  methodName == "Load" || methodName == "Create" ||
  methodName == "Write" || methodName == "Unlink"

/-- The `security.GroupEveryone` group, as a group identity. -/
def groupEveryone : Nat := 0

/-- The mutable per-method data of methods.go `Method`.  Layers are
identified by allocation order (`layerCounter` is the allocator);
`nextLayer` is the `map[*methodLayer]*methodLayer` as an association list;
`layerFuncs` records each layer's wrapped function value by its signature;
`groups` and `groupsCallers` are the two grant sets (groups and callers by
identity). -/
structure MethodState where
  name : String
  modelId : Nat
  methodType : Option Signature
  topLayer : Option Nat
  nextLayer : List (Nat × Nat)
  layerCounter : Nat
  layerFuncs : List (Nat × Signature)
  groups : List Nat
  groupsCallers : List (Nat × Nat)
deriving DecidableEq

/-- Set-insert into the unconditional grant set (`m.groups[group] = true`). -/
def insertGroup (l : List Nat) (g : Nat) : List Nat :=
  if g ∈ l then l else g :: l

/-- Set-insert into the caller-scoped grant set
(`m.groupsCallers[callerGroup{...}] = true`). -/
def insertCallerGroup (l : List (Nat × Nat)) (x : Nat × Nat) : List (Nat × Nat) :=
  if x ∈ l then l else x :: l

/-- methods.go `Method.AllowGroup`: with no callers, install the
unconditional grant; with callers, install one (caller, group) pair per
caller and leave the unconditional set alone. -/
def MethodState.allowGroup (m : MethodState) (group : Nat) (callers : List Nat) :
    MethodState :=
  if callers = [] then { m with groups := insertGroup m.groups group }
  else
    { m with
      groupsCallers :=
        callers.foldl (fun acc caller => insertCallerGroup acc (caller, group))
          m.groupsCallers }

/-- methods.go `Method.RevokeGroup`: delete the unconditional grant for the
group and every (caller, group) pair whose group component is the group. -/
def MethodState.revokeGroup (m : MethodState) (group : Nat) : MethodState :=
  { m with
    groups := m.groups.filter (fun g => g ≠ group),
    groupsCallers := m.groupsCallers.filter (fun cg => cg.2 ≠ group) }

/-- methods.go `Method.addMethodLayer`: allocate a fresh layer, link it to
the previous top layer (when there is one) in `nextLayer`, and make it the
new top layer.  The wrapped function value of the layer is recorded in
`layerFuncs`. -/
def addMethodLayer (m : MethodState) (val : Signature) : MethodState :=
  let ml := m.layerCounter
  { m with
    topLayer := some ml,
    nextLayer :=
      match m.topLayer with
      | some top => (ml, top) :: m.nextLayer
      | none => m.nextLayer,
    layerFuncs := (ml, val) :: m.layerFuncs,
    layerCounter := ml + 1 }

/-- methods.go `Method.getNextLayer`: the `nextLayer` map lookup. -/
def getNextLayer (m : MethodState) (ml : Nat) : Option Nat :=
  m.nextLayer.lookup ml

/-- Loop body of methods.go `Method.invertedLayers`: walk the `nextLayer`
chain from `cl`, prepending each visited layer.  The fuel argument only
serves termination; `layerCounter` bounds the chain length for every state
built by `addMethodLayer`. -/
def invertedLayersAux (m : MethodState) : Nat → Option Nat → List Nat → List Nat
  | 0, _, acc => acc
  | _ + 1, none, acc => acc
  | fuel + 1, some cl, acc => invertedLayersAux m fuel (getNextLayer m cl) (cl :: acc)

/-- methods.go `Method.invertedLayers`: the layers from the base method up
through all extension layers, i.e. from bottom to top. -/
def invertedLayers (m : MethodState) : List Nat :=
  invertedLayersAux m m.layerCounter m.topLayer []

/-- methods.go `copyMethod`: a new method for the given model taking name
and method type from `method`, with no layers and empty grant sets. -/
def copyMethod (modelId : Nat) (method : MethodState) : MethodState :=
  { name := method.name
    modelId := modelId
    methodType := method.methodType
    topLayer := none
    nextLayer := []
    layerCounter := 0
    layerFuncs := []
    groups := []
    groupsCallers := [] }

/-- The `&Method{...}` literal allocated by methods.go `AddEmptyMethod` when
the method does not exist yet. -/
def freshMethod (modelId : Nat) (methodName : String) : MethodState :=
  { name := methodName
    modelId := modelId
    methodType := none
    topLayer := none
    nextLayer := []
    layerCounter := 0
    layerFuncs := []
    groups := []
    groupsCallers := [] }

/-- The method value as stored by methods.go `MethodsCollection.set`: after
inserting into the registry, `set` grants `GroupEveryone` on the method
unless its name is in `unauthorizedMethods` (the registry entry and the
caller's reference alias the same `*Method`, so both see the grant). -/
def storedMethod (methodName : String) (methInfo : MethodState) : MethodState :=
  if unauthorizedMethods methodName then methInfo
  else methInfo.allowGroup groupEveryone []

/-- methods.go `checkTypesMatch`: the chain of early-return tests, as their
disjunction.  Two types match if they are the same type, if one is
`*RecordCollection` and the other implements `RecordSet`, if one is
`FieldMap` and the other implements `FieldMapper`, or if one is an
interface implemented by the other. -/
def checkTypesMatch (u : TypeUniv) (type1 type2 : Nat) : Bool :=
  (type1 == type2) ||
  ((type1 == u.ptrRecordCollection) && u.implements type2 u.ifaceRecordSet) ||
  ((type2 == u.ptrRecordCollection) && u.implements type1 u.ifaceRecordSet) ||
  ((type1 == u.fieldMapType) && u.implements type2 u.ifaceFieldMapper) ||
  ((type2 == u.fieldMapType) && u.implements type1 u.ifaceFieldMapper) ||
  (u.isInterface type2 && u.implements type1 type2) ||
  (u.isInterface type1 && u.implements type2 type1)

/-- methods.go `Method.checkSignaturesMatch` as a boolean: the conjunction
of the checks whose failure panics — same `NumIn`, `checkTypesMatch` on
every parameter pair from index 1 on (the receiver at index 0 is not
checked), same `NumOut`, `checkTypesMatch` on every return pair, and the
same variadic-ness. -/
def checkSignaturesMatch (u : TypeUniv) (mt ft : Signature) : Bool :=
  (mt.inTypes.length == ft.inTypes.length) &&
  ((mt.inTypes.drop 1).zip (ft.inTypes.drop 1)).all
    (fun p => checkTypesMatch u p.1 p.2) &&
  (mt.outTypes.length == ft.outTypes.length) &&
  (mt.outTypes.zip ft.outTypes).all (fun p => checkTypesMatch u p.1 p.2) &&
  (mt.variadic == ft.variadic)

/-- methods.go `Method.checkMethodAndFnctType`: panics after bootstrap, on a
non-function `fnct`, and when the function has no first argument or its
first argument does not implement `RecordSet`.  Returns the function's
signature on success.  The `bootstrapped` argument is the
`m.model.methods.bootstrapped` flag of the method's collection. -/
def checkMethodAndFnctType (u : TypeUniv) (bootstrapped : Bool) (fnct : FnctArg) :
    Except MErr Signature :=
  if bootstrapped then .error .mutationAfterBootstrap
  else
    match fnct with
    | .nonFunc => .error .notAFunction
    | .func sig =>
      if sig.inTypes.length = 0 ∨ u.implements (sig.inTypes.headD 0) u.ifaceRecordSet = false
      then .error .firstArgNotRecordSet
      else .ok sig

/-- methods.go `Method.finalize`: panics when the method already has a top
layer, validates `fnct`, then adds it as the first layer and records the
canonical signature. -/
def finalize (u : TypeUniv) (bootstrapped : Bool) (m : MethodState) (fnct : FnctArg) :
    Except MErr MethodState :=
  if m.topLayer ≠ none then .error .duplicateDeclaration
  else
    match checkMethodAndFnctType u bootstrapped fnct with
    | .error e => .error e
    | .ok sig => .ok (addMethodLayer { m with methodType := some sig } sig)

/-- methods.go `Method.Extend`: validates `fnct`, checks its signature
against the recorded canonical signature when there is one (panicking on
mismatch), then records the new signature and adds the layer. -/
def MethodState.Extend (u : TypeUniv) (bootstrapped : Bool) (m : MethodState)
    (fnct : FnctArg) : Except MErr MethodState :=
  match checkMethodAndFnctType u bootstrapped fnct with
  | .error e => .error e
  | .ok sig =>
    match m.methodType with
    | some mt =>
      if checkSignaturesMatch u mt sig
      then .ok (addMethodLayer { m with methodType := some sig } sig)
      else .error .incompatibleSignature
    | none => .ok (addMethodLayer { m with methodType := some sig } sig)

/-- The method state observed after running an entry point whose panics
unwind without touching the state: the new state on success, the original
state when the entry point panicked. -/
def runOr (m : MethodState) (r : Except MErr MethodState) : MethodState :=
  match r with
  | .ok m' => m'
  | .error _ => m

/-- The registry of a methods.go `MethodsCollection` (`map[string]*Method`)
as an association list, with the owning model's identity and the
`bootstrapped` flag. -/
structure MethodsCollection where
  modelId : Nat
  registry : List (String × MethodState)
  bootstrapped : Bool
deriving DecidableEq

/-- Map-insert into the registry: replace the binding when the key is
present, append it otherwise. -/
def insertReg (reg : List (String × MethodState)) (methodName : String)
    (mi : MethodState) : List (String × MethodState) :=
  match reg with
  | [] => [(methodName, mi)]
  | (k, v) :: rest =>
    if k = methodName then (methodName, mi) :: rest
    else (k, v) :: insertReg rest methodName mi

/-- Registry lookup (`mc.registry[methodName]`). -/
def lookupReg (reg : List (String × MethodState)) (methodName : String) :
    Option MethodState :=
  reg.lookup methodName

/-- methods.go `MethodsCollection.set`: panics when the method belongs to a
different model, otherwise stores the method in the registry; unless the
name is in `unauthorizedMethods`, `GroupEveryone` is then granted on the
stored method (see `storedMethod`). -/
def MethodsCollection.set (mc : MethodsCollection) (methodName : String)
    (methInfo : MethodState) : Except MErr MethodsCollection :=
  if mc.modelId ≠ methInfo.modelId then .error .setDifferentModel
  else
    .ok { mc with
          registry := insertReg mc.registry methodName (storedMethod methodName methInfo) }

/-- A methods.go `Model` restricted to what the method registry code uses:
its `MethodsCollection` and its list of mixin models. -/
inductive GoModel where
  | mk (mc : MethodsCollection) (mixins : List GoModel)

/-- The model's methods collection. -/
def GoModel.mc : GoModel → MethodsCollection
  | .mk c _ => c

/-- The model's mixins. -/
def GoModel.mixins : GoModel → List GoModel
  | .mk _ l => l

/-- Replace the model's mixin list (used to thread the state updates the
recursive lookups perform inside mixins). -/
def GoModel.withMixins : GoModel → List GoModel → GoModel
  | .mk c _, l => .mk c l

mutual

/-- methods.go `MethodsCollection.get`: look the name up in the registry;
before bootstrap a miss falls back to `findMethodInMixin`, and a method
found in a mixin is copied onto this model (`copyMethod` + `set`) and
returned with `inModel = false`.  The result is
(method, found, found in this model, updated model); the model is threaded
because the fallback mutates registries.  Each recursive step consumes one
unit of fuel, so any fuel above the number of models in the mixin tree is
enough; at fuel 0 the lookup reports a miss. -/
def goGet : Nat → GoModel → String → Option MethodState × Bool × Bool × GoModel
  | 0, m, _ => (none, false, false, m)
  | fuel + 1, .mk mc mixins, methodName =>
    match lookupReg mc.registry methodName with
    | some mi => (some mi, true, true, .mk mc mixins)
    | none =>
      if mc.bootstrapped then (none, false, false, .mk mc mixins)
      else
        match findMethodInMixin fuel mixins methodName with
        | (none, mixins') => (none, false, false, .mk mc mixins')
        | (some meth, mixins') =>
          let mi := copyMethod mc.modelId meth
          match mc.set methodName mi with
          | .ok mc' => (some (storedMethod methodName mi), true, false, .mk mc' mixins')
          | .error _ => (none, false, false, .mk mc mixins)

/-- methods.go `Model.findMethodInMixin`: walk the mixins in order; for each
mixin first try `Get` (i.e. `get` dropping the `inModel` flag), then
recursively search that mixin's own mixins, before moving to the next
mixin.  Threads the possibly mutated mixin models. -/
def findMethodInMixin : Nat → List GoModel → String → Option MethodState × List GoModel
  | 0, l, _ => (none, l)
  | _ + 1, [], _ => (none, [])
  | fuel + 1, mixin :: rest, methodName =>
    match goGet fuel mixin methodName with
    | (some meth, _, _, mixin') => (some meth, mixin' :: rest)
    | (none, _, _, mixin') =>
      match findMethodInMixin fuel mixin'.mixins methodName with
      | (some meth, subs) => (some meth, mixin'.withMixins subs :: rest)
      | (none, subs) =>
        match findMethodInMixin fuel rest methodName with
        | (r, rest') => (r, mixin'.withMixins subs :: rest')

end

/-- methods.go `MethodsCollection.Get`: `get` without the `inModel` flag. -/
def goGetPub (fuel : Nat) (m : GoModel) (methodName : String) :
    Option MethodState × Bool × GoModel :=
  match goGet fuel m methodName with
  | (mi, found, _, m') => (mi, found, m')

/-- methods.go `MethodsCollection.MustGet`: panics when the method is not
found. -/
def mustGet (fuel : Nat) (m : GoModel) (methodName : String) :
    Except MErr (MethodState × GoModel) :=
  match goGet fuel m methodName with
  | (some mi, true, _, m') => .ok (mi, m')
  | _ => .error .unknownMethod

/-- Write a method back into the model's registry.  This models the Go
pointer aliasing: `finalize`, `Extend` etc. mutate the `*Method` that the
registry already points to, so the registry observes the update. -/
def GoModel.setReg (m : GoModel) (methodName : String) (mi : MethodState) : GoModel :=
  match m with
  | .mk mc mixins => .mk { mc with registry := insertReg mc.registry methodName mi } mixins

/-- methods.go `Model.AddEmptyMethod`: panics after bootstrap and when the
method already exists in this very model; otherwise stores (a fresh method,
or the mixin placeholder `get` just installed) via `set` and returns the
stored method. -/
def addEmptyMethod (fuel : Nat) (m : GoModel) (methodName : String) :
    Except MErr (MethodState × GoModel) :=
  if m.mc.bootstrapped then .error .mutationAfterBootstrap
  else
    match goGet fuel m methodName with
    | (some _, _, true, _) => .error .duplicateDeclaration
    | (some meth, _, false, m') =>
      match m'.mc.set methodName meth with
      | .ok mc' => .ok (storedMethod methodName meth, .mk mc' m'.mixins)
      | .error e => .error e
    | (none, _, _, m') =>
      let meth := freshMethod m'.mc.modelId methodName
      match m'.mc.set methodName meth with
      | .ok mc' => .ok (storedMethod methodName meth, .mk mc' m'.mixins)
      | .error e => .error e

/-- methods.go `Model.NewMethod`: panics when `get` finds the name in a
mixin rather than in this model; creates the method via `AddEmptyMethod`
when it does not exist; then `finalize`s it with `fnct`.  The finalized
method is written back to the registry (pointer aliasing in Go). -/
def newMethod (u : TypeUniv) (fuel : Nat) (m : GoModel) (methodName : String)
    (fnct : FnctArg) : Except MErr (MethodState × GoModel) :=
  match goGet fuel m methodName with
  | (some meth, _, true, m') =>
    match finalize u m'.mc.bootstrapped meth fnct with
    | .ok meth' => .ok (meth', m'.setReg methodName meth')
    | .error e => .error e
  | (some _, _, false, _) => .error .duplicateDeclaration
  | (none, _, _, m') =>
    match addEmptyMethod fuel m' methodName with
    | .error e => .error e
    | .ok (meth, m'') =>
      match finalize u m''.mc.bootstrapped meth fnct with
      | .ok meth' => .ok (meth', m''.setReg methodName meth')
      | .error e => .error e

/-- methods.go `Model.addMethod`: an alias of `NewMethod` with an identical
body (kept separate in the source only for the code generator). -/
def addMethod (u : TypeUniv) (fuel : Nat) (m : GoModel) (methodName : String)
    (fnct : FnctArg) : Except MErr (MethodState × GoModel) :=
  newMethod u fuel m methodName fnct

/-- A runtime argument value crossing the generic dispatch boundary, by the
dynamic-type cases methods.go `convertFunctionArg` distinguishes: a
`Conditioner`, a `RecordData` (either a generic `*ModelData` or an already
typed wrapper), a `RecordSet`, `nil`, or any other value (with its dynamic
type identity). -/
inductive GoValue where
  | conditioner
  | recordDataGeneric
  | recordDataTyped
  | recordSet
  | nilValue
  | plain (t : Nat)
deriving DecidableEq

/-- The `reflect.Value` produced by an argument conversion, by the return
path of methods.go `convertFunctionArg` (plus the two receiver conversions
performed for `argsVals[0]` in `wrapFunctionForMethodLayer`). -/
inductive ConvVal where
  | rcDirect
  | rcWrapped (modelName : String)
  | condAsIs
  | condUnderlying
  | condTyped (t : Nat)
  | rdAsIs
  | rdUnderlying
  | rdWrapped
  | rdTypedAsIs
  | rsAsIs
  | rsCollection
  | rsCollectionWrapped
  | zeroOf (t : Nat)
  | plainAsIs (t : Nat)
deriving DecidableEq

/-- methods.go `convertFunctionArg`: convert `arg` to the declared parameter
type `fnctArgType`, case by dynamic type of the argument. -/
def convertFunctionArg (u : TypeUniv) (fnctArgType : Nat) (arg : GoValue) : ConvVal :=
  match arg with
  | .conditioner =>
    if u.isInterface fnctArgType then .condAsIs
    else if fnctArgType = u.ptrCondition then .condUnderlying
    else .condTyped fnctArgType
  | .recordDataGeneric =>
    if fnctArgType = u.ifaceRecordData then .rdAsIs
    else if fnctArgType = u.ptrModelData then .rdUnderlying
    else .rdWrapped
  | .recordDataTyped =>
    if fnctArgType = u.ifaceRecordData then .rdAsIs
    else if fnctArgType = u.ptrModelData then .rdUnderlying
    else .rdTypedAsIs
  | .recordSet =>
    if fnctArgType = u.ifaceRecordSet then .rsAsIs
    else if fnctArgType = u.ptrRecordCollection then .rsCollection
    else .rsCollectionWrapped
  | .nilValue => .zeroOf fnctArgType
  | .plain t => .plainAsIs t

/-- The reflect-level panics of the generic method-layer wrapper. -/
inductive CallErr where
  | indexOutOfRange
  | noArgZero
  | zeroValueArg
  | badArity
deriving DecidableEq

/-- The conversion loop of the closure built by methods.go
`wrapFunctionForMethodLayer`: for `i` running over the `cnt` parameter
positions after the receiver, break when the supplied arguments run out
exactly at the trailing variadic slot
(`len(args) < i+1 && IsVariadic() && i == NumIn()-2`), panic with an index
out of range when they run out anywhere else (`args[i]`), and otherwise
convert `args[i]` to the type of parameter `i+1`. -/
def convertArgsFrom (u : TypeUniv) (sig : Signature) (args : List GoValue) :
    Nat → Nat → Except CallErr (List ConvVal)
  | _, 0 => .ok []
  | i, cnt + 1 =>
    if args.length < i + 1 ∧ sig.variadic = true ∧ i = sig.inTypes.length - 2
    then .ok []
    else
      match args[i]? with
      | none => .error .indexOutOfRange
      | some a =>
        match convertArgsFrom u sig args (i + 1) cnt with
        | .error e => .error e
        | .ok rest => .ok (convertFunctionArg u (sig.inTypes.getD (i + 1) 0) a :: rest)

/-- The closure built by methods.go `wrapFunctionForMethodLayer` up to the
point where `fnct` is invoked: set `argsVals[0]` from the record collection
(directly for a `*RecordCollection` receiver, wrapped in the typed record
set recovered by stripping the 3-character suffix of the type name
otherwise), run the conversion loop, then call the function — with
`CallSlice` when the function is variadic and the `len(args)+1` vector is
exactly `NumIn()` long, with `Call` otherwise.  `reflect`'s own panics are
modelled: an unset (zero) `reflect.Value` in the preallocated vector, and
an argument-count mismatch in `Call`.  Returns the converted argument
vector and whether `CallSlice` was used. -/
def methodLayerCall (u : TypeUniv) (sig : Signature) (args : List GoValue) :
    Except CallErr (List ConvVal × Bool) :=
  match sig.inTypes with
  | [] => .error .noArgZero
  | t0 :: _ =>
    let arg0 : ConvVal :=
      if t0 = u.ptrRecordCollection then .rcDirect
      else .rcWrapped ((u.typeName t0).dropRight 3)
    match convertArgsFrom u sig args 0 (sig.inTypes.length - 1) with
    | .error e => .error e
    | .ok converted =>
      let argsVals := arg0 :: converted
      if argsVals.length < args.length + 1 then .error .zeroValueArg
      else if sig.variadic = true ∧ args.length + 1 = sig.inTypes.length
      then .ok (argsVals, true)
      else if sig.variadic = true then
        if sig.inTypes.length - 1 ≤ argsVals.length then .ok (argsVals, false)
        else .error .badArity
      else if argsVals.length = sig.inTypes.length then .ok (argsVals, false)
      else .error .badArity

/-- The receiver conversion of the wrapper closure: `argsVals[0]` as set by
`wrapFunctionForMethodLayer` from the declared type of parameter 0. -/
def argZeroConv (u : TypeUniv) (sig : Signature) : ConvVal :=
  match sig.inTypes with
  | [] => .zeroOf 0
  | t0 :: _ =>
    if t0 = u.ptrRecordCollection then .rcDirect
    else .rcWrapped ((u.typeName t0).dropRight 3)

/-- The argument conversions the wrapper loop performs when it converts
every supplied argument: argument `i` converted to the type of parameter
`i + 1`. -/
def convertedArgsList (u : TypeUniv) (sig : Signature) (args : List GoValue) :
    List ConvVal :=
  (List.range args.length).map
    (fun i => convertFunctionArg u (sig.inTypes.getD (i + 1) 0) (args.getD i .nilValue))

/-- Iterate `addMethodLayer` starting from `m`: the layer stack produced by
an initial `finalize` followed by `Extend` calls, whose successive function
values are `sigs 0`, `sigs 1`, ... -/
def iterAddLayers (m : MethodState) (sigs : Nat → Signature) : Nat → MethodState
  | 0 => m
  | n + 1 => addMethodLayer (iterAddLayers m sigs n) (sigs n)

/-- A small concrete reflective environment for evaluating the embedding:
type 1 is `*RecordCollection`, 2 `RecordSet`, 3 `FieldMap`,
4 `FieldMapper`, 5 `*Condition`, 6 `RecordData`, 7 `*ModelData`; type 10 is
a generated record-set view (named `UserSet`) implementing `RecordSet`. -/
def testUniv : TypeUniv :=
  { ptrRecordCollection := 1
    ifaceRecordSet := 2
    fieldMapType := 3
    ifaceFieldMapper := 4
    ptrCondition := 5
    ifaceRecordData := 6
    ptrModelData := 7
    isInterface := fun t => t == 2 || t == 4 || t == 6
    implements := fun t i => ((t == 10 || t == 1) && i == 2)
    typeName := fun t => if t == 10 then "UserSet" else "T" }

/-- `func(u UserSet, x T8) T9` — a canonical signature for evaluation. -/
def sigBaseT : Signature := { inTypes := [10, 8], outTypes := [9], variadic := false }

/-- `func(u UserSet, x T8)` — same parameters, no return value. -/
def sigNoOutT : Signature := { inTypes := [10, 8], outTypes := [], variadic := false }

/-- `func(u UserSet)` — receiver only. -/
def fooSigT : Signature := { inTypes := [10], outTypes := [], variadic := false }

/-- A method with a recorded canonical signature and no layers yet. -/
def baseMethT : MethodState :=
  { freshMethod 1 "Greet" with methodType := some sigBaseT }

/-- A finalized one-layer method named `Foo` living on model 2. -/
def mixFooMethT : MethodState :=
  { freshMethod 2 "Foo" with
    methodType := some fooSigT
    topLayer := some 0
    layerCounter := 1
    layerFuncs := [(0, fooSigT)]
    groups := [groupEveryone] }

/-- A mixin model (model 2) declaring `Foo`. -/
def mixModelT : GoModel :=
  .mk { modelId := 2, registry := [("Foo", mixFooMethT)], bootstrapped := false } []

/-- An entity model (model 1) with an empty registry mixing in `mixModelT`. -/
def entModelT : GoModel := .mk { modelId := 1, registry := [], bootstrapped := false } [mixModelT]

/-- A bootstrapped model holding a finalized `Greet` method. -/
def bootModelT : GoModel :=
  .mk { modelId := 1
        registry := [("Greet", { freshMethod 1 "Greet" with
                                 methodType := some fooSigT
                                 topLayer := some 0
                                 layerCounter := 1
                                 layerFuncs := [(0, fooSigT)] })]
        bootstrapped := true } []

/-- A method state with some grants, for evaluating the grant operations. -/
def grantedMethT : MethodState :=
  { freshMethod 1 "Greet" with
    groups := [3, 5]
    groupsCallers := [(7, 5), (8, 4)] }

theorem mem_insertCallerGroup_elim {l : List (Nat × Nat)} {x y : Nat × Nat}
    (h : y ∈ insertCallerGroup l x) : y ∈ l ∨ y = x := by
  unfold insertCallerGroup at h
  split at h
  · exact Or.inl h
  · rcases List.mem_cons.mp h with h' | h'
    · exact Or.inr h'
    · exact Or.inl h'

theorem mem_insertCallerGroup_self {l : List (Nat × Nat)} {x : Nat × Nat} :
    x ∈ insertCallerGroup l x := by
  unfold insertCallerGroup
  split
  · assumption
  · exact List.mem_cons_self x l

theorem mem_insertCallerGroup_of_mem {l : List (Nat × Nat)} {x y : Nat × Nat}
    (h : y ∈ l) : y ∈ insertCallerGroup l x := by
  unfold insertCallerGroup
  split
  · exact h
  · exact List.mem_cons_of_mem x h

theorem foldl_insertCallerGroup_elim (g : Nat) :
    ∀ (cs : List Nat) (init : List (Nat × Nat)) (y : Nat × Nat),
      y ∈ cs.foldl (fun acc caller => insertCallerGroup acc (caller, g)) init →
      y ∈ init ∨ (y.1 ∈ cs ∧ y.2 = g) := by
  intro cs
  induction cs with
  | nil => intro init y h; exact Or.inl h
  | cons c cs ih =>
    intro init y h
    simp only [List.foldl_cons] at h
    rcases ih _ y h with h' | h'
    · rcases mem_insertCallerGroup_elim h' with h'' | h''
      · exact Or.inl h''
      · subst h''
        exact Or.inr ⟨List.mem_cons_self c cs, rfl⟩
    · exact Or.inr ⟨List.mem_cons_of_mem c h'.1, h'.2⟩

theorem foldl_insertCallerGroup_preserve (g : Nat) :
    ∀ (cs : List Nat) (init : List (Nat × Nat)) (y : Nat × Nat),
      y ∈ init →
      y ∈ cs.foldl (fun acc caller => insertCallerGroup acc (caller, g)) init := by
  intro cs
  induction cs with
  | nil => intro init y h; exact h
  | cons c cs ih =>
    intro init y h
    simp only [List.foldl_cons]
    exact ih _ y (mem_insertCallerGroup_of_mem h)

theorem foldl_insertCallerGroup_adds (g : Nat) :
    ∀ (cs : List Nat) (init : List (Nat × Nat)) (c : Nat), c ∈ cs →
      (c, g) ∈ cs.foldl (fun acc caller => insertCallerGroup acc (caller, g)) init := by
  intro cs
  induction cs with
  | nil => intro init c h; cases h
  | cons c0 cs ih =>
    intro init c h
    simp only [List.foldl_cons]
    rcases List.mem_cons.mp h with h' | h'
    · subst h'
      exact foldl_insertCallerGroup_preserve g cs _ _ mem_insertCallerGroup_self
    · exact ih _ c h'

/-- C10: the signature-compatibility type test of `checkTypesMatch` is
symmetric — which of the two types is the recorded canonical one does not
matter. -/
theorem checkTypesMatch_symm (u : TypeUniv) (t1 t2 : Nat) :
    checkTypesMatch u t1 t2 = checkTypesMatch u t2 t1 := by
  unfold checkTypesMatch
  by_cases h : t1 = t2
  · subst h; rfl
  · have h1 : (t1 == t2) = false := by simp [h]
    have h2 : (t2 == t1) = false := by simp [Ne.symm h]
    rw [h1, h2]
    simp only [Bool.false_or]
    ac_rfl

/-- Witness for C10 at a concrete pair of types. -/
theorem checkTypesMatch_symm_witness :
    checkTypesMatch testUniv 1 10 = checkTypesMatch testUniv 10 1 :=
  checkTypesMatch_symm testUniv 1 10

/-- C3: `RevokeGroup` removes the unconditional grant for the group and
every caller-scoped grant naming it, whatever the caller and whatever the
prior grant state. -/
theorem revokeGroup_total (m : MethodState) (group : Nat) :
    group ∉ (m.revokeGroup group).groups ∧
    ∀ caller : Nat, (caller, group) ∉ (m.revokeGroup group).groupsCallers := by
  constructor
  · intro h
    simp [MethodState.revokeGroup, List.mem_filter] at h
  · intro caller h
    simp [MethodState.revokeGroup, List.mem_filter] at h

/-- Witness for C3 on a concrete grant state. -/
theorem revokeGroup_total_witness :
    5 ∉ (grantedMethT.revokeGroup 5).groups ∧
    (7, 5) ∉ (grantedMethT.revokeGroup 5).groupsCallers :=
  ⟨(revokeGroup_total grantedMethT 5).1, (revokeGroup_total grantedMethT 5).2 7⟩

/-- C8: `AllowGroup` with a non-empty caller list leaves the unconditional
grant set unchanged, every element of the resulting caller-scoped set is
either an old grant or a (caller, group) pair for one of the given
callers, and each such pair is indeed present. -/
theorem allowGroup_callers_scoped (m : MethodState) (group : Nat) (callers : List Nat)
    (h : callers ≠ []) :
    (m.allowGroup group callers).groups = m.groups ∧
    (∀ p ∈ (m.allowGroup group callers).groupsCallers,
        p ∈ m.groupsCallers ∨ (p.1 ∈ callers ∧ p.2 = group)) ∧
    ∀ caller ∈ callers, (caller, group) ∈ (m.allowGroup group callers).groupsCallers := by
  unfold MethodState.allowGroup
  rw [if_neg h]
  refine ⟨rfl, ?_, ?_⟩
  · intro p hp
    exact foldl_insertCallerGroup_elim group callers m.groupsCallers p hp
  · intro caller hc
    exact foldl_insertCallerGroup_adds group callers m.groupsCallers caller hc

/-- Witness for C8 on a concrete grant state and caller list. -/
theorem allowGroup_callers_scoped_witness :
    (grantedMethT.allowGroup 9 [11, 12]).groups = grantedMethT.groups ∧
    (11, 9) ∈ (grantedMethT.allowGroup 9 [11, 12]).groupsCallers := by
  have h := allowGroup_callers_scoped grantedMethT 9 [11, 12] (by decide)
  exact ⟨h.1, h.2.2 11 (by decide)⟩

theorem lookupReg_insertReg (reg : List (String × MethodState)) (methodName : String)
    (mi : MethodState) :
    lookupReg (insertReg reg methodName mi) methodName = some mi := by
  induction reg with
  | nil => simp [insertReg, lookupReg, List.lookup]
  | cons kv rest ih =>
    obtain ⟨k, v⟩ := kv
    by_cases hk : k = methodName
    · subst hk
      simp [insertReg, lookupReg, List.lookup]
    · have hbeq : (methodName == k) = false := by simp [Ne.symm hk]
      simp only [lookupReg] at ih ⊢
      simp only [insertReg, if_neg hk, List.lookup, hbeq]
      exact ih

theorem storedMethod_groups_unauthorized (methodName : String) (methInfo : MethodState)
    (h : unauthorizedMethods methodName = true) :
    (storedMethod methodName methInfo).groups = methInfo.groups := by
  simp [storedMethod, h]

theorem mem_insertGroup_self (l : List Nat) (g : Nat) : g ∈ insertGroup l g := by
  unfold insertGroup
  split
  · assumption
  · exact List.mem_cons_self _ _

theorem storedMethod_groups_everyone (methodName : String) (methInfo : MethodState)
    (h : unauthorizedMethods methodName = false) :
    groupEveryone ∈ (storedMethod methodName methInfo).groups := by
  have hg : (storedMethod methodName methInfo).groups =
      insertGroup methInfo.groups groupEveryone := by
    simp [storedMethod, h, MethodState.allowGroup]
  rw [hg]
  exact mem_insertGroup_self _ _

/-- C4: `MethodsCollection.set` (the single point through which a method is
installed into a collection) stores the method and grants it to
`GroupEveryone` unless its name belongs to the `unauthorizedMethods`
deny-by-default set, in which case the stored method's grant set is exactly
what it was before. -/
theorem set_default_policy (mc : MethodsCollection) (methodName : String)
    (methInfo : MethodState) (h : mc.modelId = methInfo.modelId) :
    mc.set methodName methInfo =
      .ok { mc with
            registry := insertReg mc.registry methodName (storedMethod methodName methInfo) } ∧
    lookupReg (insertReg mc.registry methodName (storedMethod methodName methInfo)) methodName =
      some (storedMethod methodName methInfo) ∧
    (unauthorizedMethods methodName = true →
      (storedMethod methodName methInfo).groups = methInfo.groups) ∧
    (unauthorizedMethods methodName = false →
      groupEveryone ∈ (storedMethod methodName methInfo).groups) := by
  refine ⟨?_, lookupReg_insertReg _ _ _, storedMethod_groups_unauthorized _ _,
    storedMethod_groups_everyone _ _⟩
  simp [MethodsCollection.set, h]

/-- Witness for C4: `Create` (deny-by-default) keeps its empty grant set,
`Greet` gets the `GroupEveryone` grant. -/
theorem set_default_policy_witness :
    (MethodsCollection.mk 1 [] false).set "Create" (freshMethod 1 "Create") =
      .ok { modelId := 1,
            registry := insertReg [] "Create" (storedMethod "Create" (freshMethod 1 "Create")),
            bootstrapped := false } ∧
    (storedMethod "Create" (freshMethod 1 "Create")).groups = (freshMethod 1 "Create").groups ∧
    groupEveryone ∈ (storedMethod "Greet" (freshMethod 1 "Greet")).groups := by
  have h1 := set_default_policy ⟨1, [], false⟩ "Create" (freshMethod 1 "Create") rfl
  have h2 := set_default_policy ⟨1, [], false⟩ "Greet" (freshMethod 1 "Greet") rfl
  exact ⟨h1.1, h1.2.2.1 (by decide), h2.2.2.2 (by decide)⟩

/-- C2: `Extend` with a function whose signature fails
`checkSignaturesMatch` against the recorded canonical signature panics with
the incompatible-signature error, and — the panic unwinding without
touching the method — the layer stack is exactly what it was before. -/
theorem extend_incompatible_unchanged (u : TypeUniv) (m : MethodState) (fnct : FnctArg)
    (mt sig : Signature)
    (hmt : m.methodType = some mt)
    (hchk : checkMethodAndFnctType u false fnct = .ok sig)
    (hbad : checkSignaturesMatch u mt sig = false) :
    MethodState.Extend u false m fnct = .error .incompatibleSignature ∧
    runOr m (MethodState.Extend u false m fnct) = m := by
  have he : MethodState.Extend u false m fnct = .error .incompatibleSignature := by
    simp [MethodState.Extend, hchk, hmt, hbad]
  exact ⟨he, by rw [he]; rfl⟩

/-- Witness for C2: extending a method whose canonical signature has one
return value with a function that has none fails and leaves the (empty)
layer stack untouched. -/
theorem extend_incompatible_unchanged_witness :
    MethodState.Extend testUniv false baseMethT (.func sigNoOutT) =
      .error .incompatibleSignature ∧
    runOr baseMethT (MethodState.Extend testUniv false baseMethT (.func sigNoOutT)) =
      baseMethT :=
  extend_incompatible_unchanged testUniv baseMethT (.func sigNoOutT) sigBaseT sigNoOutT
    (by simp [baseMethT]) (by simp [checkMethodAndFnctType, sigNoOutT, testUniv])
    (by simp [checkSignaturesMatch, sigBaseT, sigNoOutT])

theorem invertedLayersAux_none (m : MethodState) (fuel : Nat) (acc : List Nat) :
    invertedLayersAux m fuel none acc = acc := by
  cases fuel <;> rfl

theorem iterAddLayers_spec (modelId : Nat) (methodName : String) (sigs : Nat → Signature) :
    ∀ n : Nat,
      (iterAddLayers (freshMethod modelId methodName) sigs n).layerCounter = n ∧
      (iterAddLayers (freshMethod modelId methodName) sigs n).topLayer =
        (match n with | 0 => none | k + 1 => some k) ∧
      ∀ j : Nat,
        getNextLayer (iterAddLayers (freshMethod modelId methodName) sigs n) j =
          (if 1 ≤ j ∧ j < n then some (j - 1) else none) := by
  intro n
  induction n with
  | zero =>
    refine ⟨rfl, rfl, ?_⟩
    intro j
    have hc : ¬(1 ≤ j ∧ j < 0) := by omega
    rw [if_neg hc]
    rfl
  | succ n ih =>
    obtain ⟨ihc, iht, ihn⟩ := ih
    have hstep : iterAddLayers (freshMethod modelId methodName) sigs (n + 1) =
        addMethodLayer (iterAddLayers (freshMethod modelId methodName) sigs n) (sigs n) := rfl
    refine ⟨?_, ?_, ?_⟩
    · rw [hstep]; simp [addMethodLayer, ihc]
    · show (iterAddLayers (freshMethod modelId methodName) sigs (n + 1)).topLayer = some n
      rw [hstep]; simp [addMethodLayer, ihc]
    · intro j
      cases n with
      | zero =>
        have iht2 : (iterAddLayers (freshMethod modelId methodName) sigs 0).topLayer = none := iht
        have hnext : (iterAddLayers (freshMethod modelId methodName) sigs 1).nextLayer =
            (iterAddLayers (freshMethod modelId methodName) sigs 0).nextLayer := by
          rw [hstep]; simp [addMethodLayer, iht2]
        have h0 := ihn j
        rw [getNextLayer, hnext, ← getNextLayer, h0]
        have hc0 : ¬(1 ≤ j ∧ j < 0) := by omega
        have hc1 : ¬(1 ≤ j ∧ j < 1) := by omega
        rw [if_neg hc0, if_neg hc1]
      | succ k =>
        have iht2 : (iterAddLayers (freshMethod modelId methodName) sigs (k + 1)).topLayer =
            some k := iht
        have hnext : (iterAddLayers (freshMethod modelId methodName) sigs (k + 2)).nextLayer =
            (k + 1, k) :: (iterAddLayers (freshMethod modelId methodName) sigs (k + 1)).nextLayer := by
          rw [hstep]; simp [addMethodLayer, iht2, ihc]
        rw [getNextLayer, hnext]
        by_cases hj : j = k + 1
        · subst hj
          have hc : 1 ≤ k + 1 ∧ k + 1 < k + 2 := by omega
          rw [if_pos hc]
          simp [List.lookup]
        · have hbeq : (j == k + 1) = false := by simp [hj]
          have h0 := ihn j
          rw [getNextLayer] at h0
          simp only [List.lookup, hbeq, h0]
          have hiff : (1 ≤ j ∧ j < k + 1) ↔ (1 ≤ j ∧ j < k + 2) := by omega
          by_cases hc : 1 ≤ j ∧ j < k + 1
          · rw [if_pos hc, if_pos (hiff.mp hc)]
          · rw [if_neg hc, if_neg (fun h => hc (hiff.mpr h))]

theorem invertedLayersAux_chain (modelId : Nat) (methodName : String)
    (sigs : Nat → Signature) (n : Nat) :
    ∀ k : Nat, k < n → ∀ (fuel : Nat) (acc : List Nat), k + 1 ≤ fuel →
      invertedLayersAux (iterAddLayers (freshMethod modelId methodName) sigs n) fuel
        (some k) acc = List.range (k + 1) ++ acc := by
  intro k
  induction k with
  | zero =>
    intro hk fuel acc hfuel
    obtain ⟨f, rfl⟩ : ∃ f, fuel = f + 1 := ⟨fuel - 1, by omega⟩
    have h0 : getNextLayer (iterAddLayers (freshMethod modelId methodName) sigs n) 0 = none := by
      rw [(iterAddLayers_spec modelId methodName sigs n).2.2 0, if_neg (by omega)]
    show invertedLayersAux _ f (getNextLayer _ 0) (0 :: acc) = _
    rw [h0, invertedLayersAux_none]
    rfl
  | succ k ih =>
    intro hk fuel acc hfuel
    obtain ⟨f, rfl⟩ : ∃ f, fuel = f + 1 := ⟨fuel - 1, by omega⟩
    have hnext : getNextLayer (iterAddLayers (freshMethod modelId methodName) sigs n) (k + 1) =
        some k := by
      rw [(iterAddLayers_spec modelId methodName sigs n).2.2 (k + 1), if_pos (by omega)]
      rfl
    show invertedLayersAux _ f (getNextLayer _ (k + 1)) ((k + 1) :: acc) = _
    rw [hnext, ih (by omega) f ((k + 1) :: acc) (by omega)]
    rw [List.range_succ (n := k + 1)]
    simp

/-- C1: after an initial layer and any number of further layers have been
added (an initial `finalize` followed by `Extend` calls), the top layer is
the most recently added one, each layer's `nextLayer` successor is exactly
the layer added immediately before it, the first layer has no successor,
and `invertedLayers` lists the layers in registration order. -/
theorem layer_chain_registration_order (modelId : Nat) (methodName : String)
    (sigs : Nat → Signature) (n : Nat) (hn : 1 ≤ n) :
    (iterAddLayers (freshMethod modelId methodName) sigs n).topLayer = some (n - 1) ∧
    (∀ j : Nat, j + 1 < n →
      getNextLayer (iterAddLayers (freshMethod modelId methodName) sigs n) (j + 1) = some j) ∧
    getNextLayer (iterAddLayers (freshMethod modelId methodName) sigs n) 0 = none ∧
    invertedLayers (iterAddLayers (freshMethod modelId methodName) sigs n) = List.range n := by
  obtain ⟨spec_c, spec_t, spec_n⟩ := iterAddLayers_spec modelId methodName sigs n
  obtain ⟨k, rfl⟩ : ∃ k, n = k + 1 := ⟨n - 1, by omega⟩
  refine ⟨by rw [spec_t]; rfl, ?_, ?_, ?_⟩
  · intro j hj
    rw [spec_n (j + 1), if_pos (by omega)]
    rfl
  · rw [spec_n 0, if_neg (by omega)]
  · unfold invertedLayers
    rw [spec_c, spec_t]
    rw [invertedLayersAux_chain modelId methodName sigs (k + 1) k (by omega) (k + 1) []
      (by omega)]
    simp

/-- Witness for C1 with three layers. -/
theorem layer_chain_registration_order_witness :
    (iterAddLayers (freshMethod 1 "Greet") (fun _ => fooSigT) 3).topLayer = some 2 ∧
    getNextLayer (iterAddLayers (freshMethod 1 "Greet") (fun _ => fooSigT) 3) 2 = some 1 ∧
    getNextLayer (iterAddLayers (freshMethod 1 "Greet") (fun _ => fooSigT) 3) 0 = none ∧
    invertedLayers (iterAddLayers (freshMethod 1 "Greet") (fun _ => fooSigT) 3) =
      List.range 3 := by
  have h := layer_chain_registration_order 1 "Greet" (fun _ => fooSigT) 3 (by omega)
  exact ⟨h.1, h.2.1 1 (by omega), h.2.2.1, h.2.2.2⟩

theorem convertArgsFrom_variadic_short (u : TypeUniv) (sig : Signature)
    (args : List GoValue) (hvar : sig.variadic = true)
    (hlen : sig.inTypes.length = args.length + 2) :
    ∀ (cnt i : Nat), i + cnt = args.length + 1 → i ≤ args.length →
      convertArgsFrom u sig args i cnt =
        .ok ((List.range (args.length - i)).map
          (fun k => convertFunctionArg u (sig.inTypes.getD (i + k + 1) 0)
            (args.getD (i + k) GoValue.nilValue))) := by
  intro cnt
  induction cnt with
  | zero => intro i h1 h2; omega
  | succ cnt ih =>
    intro i h1 h2
    by_cases hi : i = args.length
    · subst hi
      unfold convertArgsFrom
      rw [if_pos ⟨by omega, hvar, by omega⟩]
      simp
    · have hilt : i < args.length := by omega
      have hcond : ¬(args.length < i + 1 ∧ sig.variadic = true ∧
          i = sig.inTypes.length - 2) := by
        intro h
        omega
      unfold convertArgsFrom
      rw [if_neg hcond, List.getElem?_eq_getElem hilt, ih (i + 1) (by omega) (by omega)]
      have hr : args.length - i = (args.length - (i + 1)) + 1 := by omega
      rw [hr, List.range_succ_eq_map, List.map_cons, List.map_map]
      refine congrArg Except.ok (congrArg₂ List.cons ?_ ?_)
      · simp [List.getD_eq_getElem?_getD, List.getElem?_eq_getElem hilt]
      · refine List.map_congr_left ?_
        intro k hk
        simp only [Function.comp_apply]
        have e : i + 1 + k = i + (k + 1) := by omega
        rw [e]

/-- C9: when a variadic method layer is invoked through the generic wrapper
with exactly the non-variadic parameters supplied (the shortfall being
precisely the trailing variadic slot), the call proceeds — the conversion
loop stops at the variadic slot instead of panicking, every supplied
argument is converted, and the function is invoked through `Call` (not
`CallSlice`), which fills the variadic slot with the empty slice; the
argument vector covers exactly the `NumIn()-1` non-variadic parameters. -/
theorem variadic_shortfall_proceeds (u : TypeUniv) (sig : Signature)
    (args : List GoValue) (hvar : sig.variadic = true)
    (hlen : sig.inTypes.length = args.length + 2) :
    methodLayerCall u sig args =
      .ok (argZeroConv u sig :: convertedArgsList u sig args, false) ∧
    (argZeroConv u sig :: convertedArgsList u sig args).length =
      sig.inTypes.length - 1 := by
  obtain ⟨t0, ts, hts⟩ : ∃ t0 ts, sig.inTypes = t0 :: ts := by
    cases h : sig.inTypes with
    | nil => rw [h] at hlen; simp at hlen
    | cons a b => exact ⟨a, b, rfl⟩
  have hts_len : ts.length = args.length + 1 := by
    have hc := congrArg List.length hts
    simp only [List.length_cons] at hc
    omega
  have hl := convertArgsFrom_variadic_short u sig args hvar hlen (args.length + 1) 0
    (by omega) (by omega)
  simp only [Nat.zero_add, Nat.sub_zero] at hl
  have hl2 : convertArgsFrom u sig args 0 (args.length + 1) =
      .ok (convertedArgsList u sig args) := hl
  constructor
  · unfold methodLayerCall
    rw [hts]
    simp only [List.length_cons, hts_len, Nat.add_sub_cancel]
    rw [hl2]
    have hclen : (convertedArgsList u sig args).length = args.length := by
      simp [convertedArgsList]
    have harg0 : argZeroConv u sig =
        (if t0 = u.ptrRecordCollection then ConvVal.rcDirect
         else ConvVal.rcWrapped ((u.typeName t0).dropRight 3)) := by
      simp [argZeroConv, hts]
    rw [← harg0]
    simp [hclen, hvar, hts_len]
  · simp [convertedArgsList, hlen]

/-- Witness for C9: `func(u UserSet, x T8, rest ...T20)` called with the one
fixed argument supplied and the variadic slot empty. -/
theorem variadic_shortfall_proceeds_witness :
    methodLayerCall testUniv { inTypes := [10, 8, 20], outTypes := [], variadic := true }
        [GoValue.plain 8] =
      .ok (argZeroConv testUniv { inTypes := [10, 8, 20], outTypes := [], variadic := true } ::
           convertedArgsList testUniv
             { inTypes := [10, 8, 20], outTypes := [], variadic := true }
             [GoValue.plain 8], false) ∧
    (argZeroConv testUniv { inTypes := [10, 8, 20], outTypes := [], variadic := true } ::
     convertedArgsList testUniv { inTypes := [10, 8, 20], outTypes := [], variadic := true }
       [GoValue.plain 8]).length =
      ({ inTypes := [10, 8, 20], outTypes := [], variadic := true } : Signature).inTypes.length - 1 :=
  variadic_shortfall_proceeds testUniv
    { inTypes := [10, 8, 20], outTypes := [], variadic := true } [GoValue.plain 8] rfl rfl

theorem isErr_finalize_bootstrapped (u : TypeUniv) (ms : MethodState) (fnct : FnctArg) :
    isErr (finalize u true ms fnct) = true := by
  unfold finalize
  split
  · rfl
  · simp [checkMethodAndFnctType, isErr]

theorem goGet_mc_flags (fuel : Nat) (m : GoModel) (methodName : String) :
    ((goGet fuel m methodName).2.2.2).mc.bootstrapped = m.mc.bootstrapped ∧
    ((goGet fuel m methodName).2.2.2).mc.modelId = m.mc.modelId := by
  cases fuel with
  | zero => simp [goGet]
  | succ f =>
    obtain ⟨mc, mixins⟩ := m
    simp only [goGet]
    cases hl : lookupReg mc.registry methodName with
    | some mi => simp [GoModel.mc]
    | none =>
      by_cases hb : mc.bootstrapped = true
      · simp [hb, GoModel.mc]
      · simp only [hb, if_false]
        cases hf : findMethodInMixin f mixins methodName with
        | mk r mixins' =>
          cases r with
          | none => simp [GoModel.mc]
          | some meth => simp [MethodsCollection.set, copyMethod, GoModel.mc]

/-- C5: once a collection is bootstrapped, every mutation entry point —
`NewMethod` (and its `addMethod` alias), `Extend`, and `AddEmptyMethod` —
panics, for every model, method name and function, so no layer is ever
added after bootstrap. -/
theorem mutation_after_bootstrap_fails (u : TypeUniv) (fuel : Nat) (m : GoModel)
    (methodName : String) (fnct : FnctArg) (hboot : m.mc.bootstrapped = true) :
    isErr (newMethod u fuel m methodName fnct) = true ∧
    isErr (addMethod u fuel m methodName fnct) = true ∧
    isErr (addEmptyMethod fuel m methodName) = true ∧
    ∀ ms : MethodState, isErr (MethodState.Extend u m.mc.bootstrapped ms fnct) = true := by
  have hae : ∀ m' : GoModel, m'.mc.bootstrapped = true →
      isErr (addEmptyMethod fuel m' methodName) = true := by
    intro m' h'
    unfold addEmptyMethod
    rw [if_pos h']
    rfl
  have hnew : isErr (newMethod u fuel m methodName fnct) = true := by
    rcases hgg : goGet fuel m methodName with ⟨r, ex, inm, m'⟩
    have hflag : m'.mc.bootstrapped = true := by
      have h := (goGet_mc_flags fuel m methodName).1
      rw [hgg] at h
      rw [h, hboot]
    cases r with
    | some meth =>
      cases inm with
      | false => simp [newMethod, hgg, isErr]
      | true =>
        simp only [newMethod, hgg]
        rw [hflag]
        cases hfe : finalize u true meth fnct with
        | error e => rfl
        | ok v =>
          have hf := isErr_finalize_bootstrapped u meth fnct
          rw [hfe] at hf
          simp [isErr] at hf
    | none =>
      simp only [newMethod, hgg]
      cases hres : addEmptyMethod fuel m' methodName with
      | error e => rfl
      | ok v =>
        have hf := hae m' hflag
        rw [hres] at hf
        simp [isErr] at hf
  refine ⟨hnew, ?_, hae m hboot, ?_⟩
  · unfold addMethod
    exact hnew
  · intro ms
    rw [hboot]
    unfold MethodState.Extend
    simp [checkMethodAndFnctType, isErr]

/-- Witness for C5 on a concrete bootstrapped model, for both an existing
and an absent method name. -/
theorem mutation_after_bootstrap_fails_witness :
    isErr (newMethod testUniv 1 bootModelT "Greet" (.func fooSigT)) = true ∧
    isErr (newMethod testUniv 1 bootModelT "Other" (.func fooSigT)) = true ∧
    isErr (addEmptyMethod 1 bootModelT "Greet") = true ∧
    isErr (MethodState.Extend testUniv bootModelT.mc.bootstrapped grantedMethT
      (.func fooSigT)) = true := by
  have h1 := mutation_after_bootstrap_fails testUniv 1 bootModelT "Greet" (.func fooSigT) rfl
  have h2 := mutation_after_bootstrap_fails testUniv 1 bootModelT "Other" (.func fooSigT) rfl
  exact ⟨h1.1, h2.1, h1.2.2.1, h1.2.2.2 grantedMethT⟩

theorem storedMethod_methodType (methodName : String) (mi : MethodState) :
    (storedMethod methodName mi).methodType = mi.methodType := by
  unfold storedMethod MethodState.allowGroup
  split
  · rfl
  · rw [if_pos rfl]

theorem storedMethod_topLayer (methodName : String) (mi : MethodState) :
    (storedMethod methodName mi).topLayer = mi.topLayer := by
  unfold storedMethod MethodState.allowGroup
  split
  · rfl
  · rw [if_pos rfl]

theorem storedMethod_layerCounter (methodName : String) (mi : MethodState) :
    (storedMethod methodName mi).layerCounter = mi.layerCounter := by
  unfold storedMethod MethodState.allowGroup
  split
  · rfl
  · rw [if_pos rfl]

theorem storedMethod_modelId (methodName : String) (mi : MethodState) :
    (storedMethod methodName mi).modelId = mi.modelId := by
  unfold storedMethod MethodState.allowGroup
  split
  · rfl
  · rw [if_pos rfl]

/-- C6: looking up a name that is not yet in the registry of a
non-bootstrapped collection searches the mixins (depth-first, via
`findMethodInMixin`); when a declaration is found there, a placeholder
carrying the mixin method's `methodType` but none of its layers is
installed on the entity and returned with `inModel = false`; when no mixin
declares the name, the lookup reports the method as unknown and the forced
lookup `MustGet` panics. -/
theorem mixin_lookup_materializes (fuel : Nat) (mc : MethodsCollection)
    (mixins : List GoModel) (methodName : String)
    (hreg : lookupReg mc.registry methodName = none)
    (hboot : mc.bootstrapped = false) :
    (∀ (meth : MethodState) (mixins' : List GoModel),
       findMethodInMixin fuel mixins methodName = (some meth, mixins') →
       goGet (fuel + 1) (.mk mc mixins) methodName =
         (some (storedMethod methodName (copyMethod mc.modelId meth)), true, false,
          .mk { mc with
                registry := insertReg mc.registry methodName
                  (storedMethod methodName (copyMethod mc.modelId meth)) } mixins') ∧
       (storedMethod methodName (copyMethod mc.modelId meth)).methodType = meth.methodType ∧
       (storedMethod methodName (copyMethod mc.modelId meth)).topLayer = none ∧
       (storedMethod methodName (copyMethod mc.modelId meth)).layerCounter = 0 ∧
       lookupReg (insertReg mc.registry methodName
           (storedMethod methodName (copyMethod mc.modelId meth))) methodName =
         some (storedMethod methodName (copyMethod mc.modelId meth))) ∧
    (∀ mixins' : List GoModel,
       findMethodInMixin fuel mixins methodName = (none, mixins') →
       goGet (fuel + 1) (.mk mc mixins) methodName = (none, false, false, .mk mc mixins') ∧
       mustGet (fuel + 1) (.mk mc mixins) methodName = .error .unknownMethod) := by
  constructor
  · intro meth mixins' hfind
    have hg : goGet (fuel + 1) (GoModel.mk mc mixins) methodName =
        (some (storedMethod methodName (copyMethod mc.modelId meth)), true, false,
         .mk { mc with
               registry := insertReg mc.registry methodName
                 (storedMethod methodName (copyMethod mc.modelId meth)) } mixins') := by
      simp only [goGet, hreg, hboot, Bool.false_eq_true, if_false, hfind,
        MethodsCollection.set, copyMethod]
      simp
    refine ⟨hg, storedMethod_methodType _ _, storedMethod_topLayer _ _,
      storedMethod_layerCounter _ _, lookupReg_insertReg _ _ _⟩
  · intro mixins' hfind
    have hg : goGet (fuel + 1) (GoModel.mk mc mixins) methodName =
        (none, false, false, .mk mc mixins') := by
      simp only [goGet, hreg, hboot, Bool.false_eq_true, if_false, hfind]
    refine ⟨hg, ?_⟩
    unfold mustGet
    rw [hg]
/-- Witness for C6: on `entModelT` the name `Foo` is found in the mixin and
materialized as an empty placeholder with the mixin's signature, and a name
declared nowhere reports unknown. -/
theorem mixin_lookup_materializes_witness :
    goGet 3 (.mk { modelId := 1, registry := [], bootstrapped := false } [mixModelT]) "Foo" =
      (some (storedMethod "Foo" (copyMethod 1 mixFooMethT)), true, false,
       .mk { modelId := 1,
             registry := insertReg [] "Foo" (storedMethod "Foo" (copyMethod 1 mixFooMethT)),
             bootstrapped := false } [mixModelT]) ∧
    (storedMethod "Foo" (copyMethod 1 mixFooMethT)).methodType = mixFooMethT.methodType ∧
    (storedMethod "Foo" (copyMethod 1 mixFooMethT)).topLayer = none ∧
    mustGet 3 (.mk { modelId := 1, registry := [], bootstrapped := false } [mixModelT])
      "Nope" = .error .unknownMethod := by
  have hfind : findMethodInMixin 2 [mixModelT] "Foo" = (some mixFooMethT, [mixModelT]) := by
    simp [findMethodInMixin, goGet, mixModelT, lookupReg, List.lookup]
  have hnone : findMethodInMixin 2 [mixModelT] "Nope" = (none, [mixModelT]) := by
    simp [findMethodInMixin, goGet, mixModelT, lookupReg, List.lookup, GoModel.mixins,
      GoModel.withMixins]
  have h1 := (mixin_lookup_materializes 2 { modelId := 1, registry := [], bootstrapped := false }
    [mixModelT] "Foo" rfl rfl).1 mixFooMethT [mixModelT] hfind
  have h2 := (mixin_lookup_materializes 2 { modelId := 1, registry := [], bootstrapped := false }
    [mixModelT] "Nope" rfl rfl).2 [mixModelT] hnone
  exact ⟨h1.1, h1.2.1, h1.2.2.1, h2.2⟩

theorem withMixins_self (m : GoModel) : m.withMixins m.mixins = m := by
  cases m
  rfl

theorem goGet_none_stable :
    ∀ fuel : Nat,
      (∀ (m : GoModel) (methodName : String) (a b : Bool) (m' : GoModel),
        goGet fuel m methodName = (none, a, b, m') → m' = m) ∧
      (∀ (l : List GoModel) (methodName : String) (l' : List GoModel),
        findMethodInMixin fuel l methodName = (none, l') → l' = l) := by
  intro fuel
  induction fuel with
  | zero =>
    constructor
    · intro m methodName a b m' h
      simp only [goGet] at h
      exact (congrArg (fun p => p.2.2.2) h).symm
    · intro l methodName l' h
      cases l with
      | nil =>
        simp only [findMethodInMixin] at h
        exact (congrArg (fun p => p.2) h).symm
      | cons mixin rest =>
        simp only [findMethodInMixin] at h
        exact (congrArg (fun p => p.2) h).symm
  | succ f ih =>
    obtain ⟨ihP, ihQ⟩ := ih
    have hP : ∀ (m : GoModel) (methodName : String) (a b : Bool) (m' : GoModel),
        goGet (f + 1) m methodName = (none, a, b, m') → m' = m := by
      intro m methodName a b m' h
      obtain ⟨mc, mixins⟩ := m
      simp only [goGet] at h
      cases hl : lookupReg mc.registry methodName with
      | some mi => simp only [hl] at h; simp at h
      | none =>
        simp only [hl] at h
        by_cases hb : mc.bootstrapped = true
        · simp only [hb, if_true] at h
          exact (congrArg (fun p => p.2.2.2) h).symm
        · rw [if_neg hb] at h
          rcases hf : findMethodInMixin f mixins methodName with ⟨r, mixins'⟩
          cases r with
          | none =>
            simp only [hf] at h
            have h2 : m' = GoModel.mk mc mixins' :=
              (congrArg (fun p => p.2.2.2) h).symm
            have h3 := ihQ mixins methodName mixins' hf
            rw [h2, h3]
          | some meth =>
            rw [hf] at h
            simp [MethodsCollection.set, copyMethod] at h
    have hQ : ∀ (l : List GoModel) (methodName : String) (l' : List GoModel),
        findMethodInMixin (f + 1) l methodName = (none, l') → l' = l := by
      intro l methodName l' h
      cases l with
      | nil =>
        simp only [findMethodInMixin] at h
        exact (congrArg (fun p => p.2) h).symm
      | cons mixin rest =>
        rcases hg : goGet f mixin methodName with ⟨r1, e1, i1, mixin'⟩
        cases r1 with
        | some meth => simp [findMethodInMixin, hg] at h
        | none =>
          rcases hsub : findMethodInMixin f mixin'.mixins methodName with ⟨r2, subs⟩
          cases r2 with
          | some meth => simp [findMethodInMixin, hg, hsub] at h
          | none =>
            rcases hrest : findMethodInMixin f rest methodName with ⟨r3, rest'⟩
            simp only [findMethodInMixin, hg, hsub, hrest, Prod.mk.injEq] at h
            obtain ⟨hr3, hl'⟩ := h
            subst hr3
            have e1 := ihP mixin methodName _ _ _ hg
            have e2 := ihQ _ methodName _ hsub
            have e3 := ihQ _ methodName _ hrest
            rw [← hl', e2, withMixins_self, e1, e3]
    exact ⟨hP, hQ⟩

theorem goGet_found_inModel (fuel : Nat) (m : GoModel) (methodName : String)
    (meth : MethodState) (a : Bool) (m' : GoModel)
    (h : goGet fuel m methodName = (some meth, a, true, m')) :
    m' = m ∧ lookupReg m.mc.registry methodName = some meth := by
  cases fuel with
  | zero => simp [goGet] at h
  | succ f =>
    obtain ⟨mc, mixins⟩ := m
    simp only [goGet] at h
    cases hl : lookupReg mc.registry methodName with
    | some mi =>
      simp only [hl, Prod.mk.injEq] at h
      obtain ⟨h1, _, _, h4⟩ := h
      refine ⟨h4.symm, ?_⟩
      rw [show (GoModel.mk mc mixins).mc = mc from rfl, hl, h1]
    | none =>
      simp only [hl] at h
      by_cases hb : mc.bootstrapped = true
      · simp [hb] at h
      · rw [if_neg hb] at h
        rcases hf : findMethodInMixin f mixins methodName with ⟨r, mixins'⟩
        cases r with
        | none => simp [hf] at h
        | some meth2 =>
          rw [hf] at h
          simp [MethodsCollection.set, copyMethod] at h

/-- C7 counterexample: on an entity whose registry is empty (so no bottom
layer is directly declared on it) but whose mixin declares `Foo`,
`NewMethod` nevertheless panics — the claim that declaration fails exactly
when a bottom layer is directly declared on the entity is false. -/
theorem newMethod_mixin_name_counterexample :
    lookupReg entModelT.mc.registry "Foo" = none ∧
    newMethod testUniv 3 entModelT "Foo" (.func fooSigT) = .error .duplicateDeclaration := by
  constructor
  · rfl
  · have hg : goGet 3 entModelT "Foo" =
        (some (storedMethod "Foo" (copyMethod 1 mixFooMethT)), true, false,
         .mk { modelId := 1,
               registry := insertReg [] "Foo" (storedMethod "Foo" (copyMethod 1 mixFooMethT)),
               bootstrapped := false } [mixModelT]) := by
      simp [goGet, findMethodInMixin, entModelT, mixModelT, lookupReg, List.lookup,
        MethodsCollection.set, copyMethod, GoModel.mc]
    simp [newMethod, hg]

/-- C7 amended: before bootstrap and with a valid function, `NewMethod`
fails when the lookup finds the name — either directly on this entity with
a bottom layer already attached, or in a mixin (whatever its layers) — and
succeeds when the name resolves to an empty directly-declared method or is
found nowhere. -/
theorem newMethod_fails_amended (u : TypeUniv) (fuel : Nat) (m : GoModel)
    (methodName : String) (fnct : FnctArg) (sig : Signature)
    (hboot : m.mc.bootstrapped = false)
    (hchk : checkMethodAndFnctType u false fnct = .ok sig) :
    (∀ (meth : MethodState) (a : Bool) (m' : GoModel),
       goGet fuel m methodName = (some meth, a, true, m') →
       (meth.topLayer = none → isErr (newMethod u fuel m methodName fnct) = false) ∧
       (meth.topLayer ≠ none →
         newMethod u fuel m methodName fnct = .error .duplicateDeclaration)) ∧
    (∀ (meth : MethodState) (a : Bool) (m' : GoModel),
       goGet fuel m methodName = (some meth, a, false, m') →
       newMethod u fuel m methodName fnct = .error .duplicateDeclaration) ∧
    (∀ (a b : Bool) (m' : GoModel),
       goGet fuel m methodName = (none, a, b, m') →
       isErr (newMethod u fuel m methodName fnct) = false) := by
  refine ⟨?_, ?_, ?_⟩
  · intro meth a m' h
    obtain ⟨hm', hlook⟩ := goGet_found_inModel fuel m methodName meth a m' h
    rw [hm'] at h
    constructor
    · intro htop
      have hfin : finalize u false meth fnct =
          .ok (addMethodLayer { meth with methodType := some sig } sig) := by
        unfold finalize
        rw [if_neg (by simp [htop]), hchk]
      simp only [newMethod, h, hboot, hfin]
      rfl
    · intro hne
      have hfin : finalize u false meth fnct = .error .duplicateDeclaration := by
        unfold finalize
        rw [if_pos hne]
      simp [newMethod, h, hboot, hfin]
  · intro meth a m' h
    simp [newMethod, h]
  · intro a b m' h
    have hm' : m' = m := (goGet_none_stable fuel).1 m methodName a b m' h
    rw [hm'] at h
    obtain ⟨mc, mixins⟩ := m
    simp only [GoModel.mc] at hboot
    have hae : addEmptyMethod fuel (GoModel.mk mc mixins) methodName =
        .ok (storedMethod methodName (freshMethod mc.modelId methodName),
             .mk { mc with
                   registry := insertReg mc.registry methodName
                     (storedMethod methodName (freshMethod mc.modelId methodName)) }
               mixins) := by
      unfold addEmptyMethod
      rw [if_neg (by simp [GoModel.mc, hboot])]
      simp only [h]
      simp [MethodsCollection.set, freshMethod, GoModel.mc, GoModel.mixins]
    have hst : (storedMethod methodName (freshMethod mc.modelId methodName)).topLayer =
        none := by
      rw [storedMethod_topLayer]
      rfl
    have hfin : finalize u false
        (storedMethod methodName (freshMethod mc.modelId methodName)) fnct =
        .ok (addMethodLayer
          { storedMethod methodName (freshMethod mc.modelId methodName) with
            methodType := some sig } sig) := by
      unfold finalize
      rw [if_neg (by simp [hst]), hchk]
    simp only [newMethod, h]
    simp [hae, GoModel.mc, hboot, hfin, isErr]

/-- Witness for the amended C7: a mixin-declared name fails, a fresh name
succeeds, and a directly declared name with a bottom layer fails. -/
theorem newMethod_fails_amended_witness :
    newMethod testUniv 3 entModelT "Foo" (.func fooSigT) = .error .duplicateDeclaration ∧
    isErr (newMethod testUniv 1
      (GoModel.mk { modelId := 1, registry := [], bootstrapped := false } []) "Fresh"
      (.func fooSigT)) = false ∧
    newMethod testUniv 1
      (GoModel.mk { modelId := 2, registry := [("Foo", mixFooMethT)], bootstrapped := false } [])
      "Foo" (.func fooSigT) = .error .duplicateDeclaration := by
  have hchk : checkMethodAndFnctType testUniv false (.func fooSigT) = .ok fooSigT := by
    simp [checkMethodAndFnctType, fooSigT, testUniv]
  have h1 := newMethod_fails_amended testUniv 3 entModelT "Foo" (.func fooSigT) fooSigT
    rfl hchk
  have h2 := newMethod_fails_amended testUniv 1
    (GoModel.mk { modelId := 1, registry := [], bootstrapped := false } []) "Fresh"
    (.func fooSigT) fooSigT rfl hchk
  have h3 := newMethod_fails_amended testUniv 1
    (GoModel.mk { modelId := 2, registry := [("Foo", mixFooMethT)], bootstrapped := false } [])
    "Foo" (.func fooSigT) fooSigT rfl hchk
  have hgg1 : goGet 3 entModelT "Foo" =
      (some (storedMethod "Foo" (copyMethod 1 mixFooMethT)), true, false,
       .mk { modelId := 1,
             registry := insertReg [] "Foo" (storedMethod "Foo" (copyMethod 1 mixFooMethT)),
             bootstrapped := false } [mixModelT]) := by
    simp [goGet, findMethodInMixin, entModelT, mixModelT, lookupReg, List.lookup,
      MethodsCollection.set, copyMethod, GoModel.mc]
  have hgg2 : goGet 1 (GoModel.mk { modelId := 1, registry := [], bootstrapped := false } [])
      "Fresh" =
      (none, false, false,
       GoModel.mk { modelId := 1, registry := [], bootstrapped := false } []) := by
    simp [goGet, findMethodInMixin, lookupReg, List.lookup]
  have hgg3 : goGet 1
      (GoModel.mk { modelId := 2, registry := [("Foo", mixFooMethT)], bootstrapped := false } [])
      "Foo" =
      (some mixFooMethT, true, true,
       GoModel.mk { modelId := 2, registry := [("Foo", mixFooMethT)], bootstrapped := false }
         []) := by
    simp [goGet, lookupReg, List.lookup]
  refine ⟨h1.2.1 _ _ _ hgg1, h2.2.2 _ _ _ hgg2, ?_⟩
  exact (h3.1 _ _ _ hgg3).2 (by simp [mixFooMethT])
